import Mathlib

/-!
Verification of the flexible-power core of `src/main.py` (ReMAIn).

The numeric code operates on numpy float arrays over a shared time grid; the
embedding models arrays as `List ℚ` with exact rational arithmetic and models
`np.pi` by the exact rational value of the IEEE-754 double `3.141592653589793`.
Python dicts (`asset`, `system`, flexibility records, the disturbance curve and
the result record) become structures with one field per key.
-/

namespace ReMAIn

/-- Stored-energy fields present only on storage-type assets
(the keys `Charge` and `Energy` of the asset dict). -/
structure EnergyFields where
  charge : ℚ
  energyCapacity : ℚ

deriving instance DecidableEq for EnergyFields

/-- One generation/storage asset: the keys `Output`, `Max Output`, `Min Output`,
`Latency`, `Ramp Up`, `Ramp Down` and, for storage, `Charge`/`Energy`
(`energy = none` models the absence of the `Charge` key). -/
structure Asset where
  output : ℚ
  maxOutput : ℚ
  minOutput : ℚ
  latency : ℚ
  rampUp : ℚ
  rampDown : ℚ
  energy : Option EnergyFields

deriving instance DecidableEq for Asset

/-- The record returned by `get_asset_flexibility`: keys `Up`, `Down`, `Output`. -/
structure Flex where
  up : List ℚ
  down : List ℚ
  output : ℚ

deriving instance DecidableEq for Flex

/-- The record returned by `flexibility_aggreagation`: keys `Up`, `Down`. -/
structure SysFlex where
  up : List ℚ
  down : List ℚ

deriving instance DecidableEq for SysFlex

/-- The system dict: keys `inertia`, `freq`, `freq min`, `freq max`. -/
structure GridSystem where
  inertia : ℚ
  freq : ℚ
  freqMin : ℚ
  freqMax : ℚ

deriving instance DecidableEq for GridSystem

/-- The record returned by `get_power_disturbance_curve`: keys `lower`, `upper`. -/
structure DisturbanceCurve where
  lower : List ℚ
  upper : List ℚ

deriving instance DecidableEq for DisturbanceCurve

/-- The record returned by `get_max_min_disturbance`: keys `max dist`,
`min dist`, `max dist @time`, `min dist @time`. -/
structure DisturbanceResult where
  maxDist : ℚ
  minDist : ℚ
  maxDistTime : ℚ
  minDistTime : ℚ

deriving instance DecidableEq for DisturbanceResult

/-- The exact rational value of the IEEE-754 double `np.pi`. -/
def np_pi : ℚ := 884279719003555 / 281474976710656

/-- Inclusive prefix sums starting from accumulator `acc`
(helper for the embedding of `ndarray.cumsum`). -/
def cumsumFrom (acc : ℚ) : List ℚ → List ℚ
  | [] => []
  | x :: xs => (acc + x) :: cumsumFrom (acc + x) xs

/-- Embedding of `ndarray.cumsum`: inclusive prefix sums. -/
def cumsum (xs : List ℚ) : List ℚ := cumsumFrom 0 xs

/-- Elementwise sum of two same-length arrays (numpy `+` on arrays). -/
def addL (x y : List ℚ) : List ℚ := List.zipWith (fun a b => a + b) x y

/-- Lines 21-23 of `main.py`: the rate/latency/headroom-limited upward
capability, before any energy limiting.
`up = time * rampUp - latency * rampUp`, then `np.where(up < 0, 0, up)`,
then `np.where(up > maxOutput - output, maxOutput - output, up)`. -/
def up_unlimited (asset : Asset) (time : List ℚ) : List ℚ :=
  ((time.map (fun t => t * asset.rampUp - asset.latency * asset.rampUp)).map
      (fun x => if x < 0 then 0 else x)).map
    (fun x => if x > asset.maxOutput - asset.output then asset.maxOutput - asset.output else x)

/-- Lines 26-28 of `main.py`: the rate/latency/floor-limited downward
capability, before any energy limiting.
`down = time * -rampDown - latency * -rampDown`, then `np.where(down > 0, 0, down)`,
then `np.where(down < minOutput - output, minOutput - output, down)`. -/
def down_unlimited (asset : Asset) (time : List ℚ) : List ℚ :=
  ((time.map (fun t => t * (-asset.rampDown) - asset.latency * (-asset.rampDown))).map
      (fun x => if x > 0 then 0 else x)).map
    (fun x => if x < asset.minOutput - asset.output then asset.minOutput - asset.output else x)

/-- Lines 13-39 of `main.py`, `get_asset_flexibility`.
The `None` branch returns scalar zeros which numpy broadcasts over the time
grid in every later elementwise use; the broadcast semantics is embedded as
the constant-zero array of the grid's length.  For a storage asset
(`'Charge' in asset`) the energy limit `np.where(up.cumsum() * dt > energy_to_empty, 0, up)`
and `np.where(-down.cumsum() * dt > energy_to_full, 0, down)` is the
elementwise zipWith over the prefix sums, with `dt = time[1] - time[0]`. -/
def get_asset_flexibility (asset : Option Asset) (time : List ℚ) : Flex :=
  match asset with
  | none => { up := List.replicate time.length 0, down := List.replicate time.length 0, output := 0 }
  | some a =>
    let up := up_unlimited a time
    let down := down_unlimited a time
    match a.energy with
    | none => { up := up, down := down, output := a.output }
    | some e =>
      let energy_to_empty := e.charge * e.energyCapacity / 100
      let energy_to_full := e.energyCapacity - energy_to_empty
      let dt := time.getD 1 0 - time.getD 0 0
      { up := List.zipWith (fun c v => if c * dt > energy_to_empty then 0 else v) (cumsum up) up,
        down := List.zipWith (fun c v => if -c * dt > energy_to_full then 0 else v) (cumsum down) down,
        output := a.output }

/-- Lines 43-66 of `main.py`, `get_power_disturbance_curve`. -/
def get_power_disturbance_curve (time : List ℚ) (system : GridSystem) : DisturbanceCurve :=
  let K := system.inertia
  let J := (2 * K) / ((4 * np_pi * system.freq / 2) ^ 2)
  let K_m := (1/2 * J) * (4 * np_pi * system.freqMin / 2) ^ 2
  let K_M := (1/2 * J) * (4 * np_pi * system.freqMax / 2) ^ 2
  let K_a_m := K - K_m
  let K_a_M := K_M - K
  { lower := time.map (fun t => -K_a_M / t), upper := time.map (fun t => K_a_m / t) }

/-- Lines 69-74 of `main.py`, `flexibility_aggreagation` (spelling kept from
the source): elementwise sum of the five assets' `Up` and `Down` arrays. -/
def flexibility_aggreagation (gas_fired_flex hydro_flex solar_flex wind_flex battery_flex : Flex) :
    SysFlex :=
  { up := addL (addL (addL (addL gas_fired_flex.up hydro_flex.up) solar_flex.up) wind_flex.up)
      battery_flex.up,
    down := addL (addL (addL (addL gas_fired_flex.down hydro_flex.down) solar_flex.down)
      wind_flex.down) battery_flex.down }

/-- Embedding of `np.argwhere(a > b)[0]` over two same-length arrays: the index
of the first elementwise strict exceedance; `none` models the `IndexError`
raised by `[0]` when no index qualifies. -/
def firstIdxGt : List ℚ → List ℚ → Option Nat
  | x :: xs, y :: ys => if y < x then some 0 else Option.map (fun i => i + 1) (firstIdxGt xs ys)
  | _, _ => none

/-- Lines 77-87 of `main.py`, `get_max_min_disturbance`.
`idx_down = np.argwhere(lower > Down)[0]`, `idx_up = np.argwhere(upper < Up)[0]`;
either lookup raising on an empty match is modelled by `none`. -/
def get_max_min_disturbance (system_flex : SysFlex) (disturbance_curve : DisturbanceCurve)
    (time : List ℚ) : Option DisturbanceResult :=
  match firstIdxGt disturbance_curve.lower system_flex.down,
      firstIdxGt system_flex.up disturbance_curve.upper with
  | some idx_down, some idx_up =>
    some { maxDist := disturbance_curve.upper.getD idx_up 0,
           minDist := disturbance_curve.lower.getD idx_down 0,
           maxDistTime := time.getD idx_up 0,
           minDistTime := time.getD idx_down 0 }
  | _, _ => none

/-- The gas-fired scenario asset of the specification:
`{output=7, maxOutput=10, minOutput=0, latency=1, rampUp=1, rampDown=1.5}`. -/
def gas_fire_asset : Asset :=
  { output := 7, maxOutput := 10, minOutput := 0, latency := 1, rampUp := 1, rampDown := 3/2,
    energy := none }

/-! ### The clamped envelope as min/max -/

theorem ite_lt_zero_eq_max (x : ℚ) : (if x < 0 then (0:ℚ) else x) = max x 0 := by
  split_ifs with h
  · exact (max_eq_right h.le).symm
  · exact (max_eq_left (not_lt.mp h)).symm

theorem ite_gt_eq_min (x c : ℚ) : (if x > c then c else x) = min x c := by
  split_ifs with h
  · exact (min_eq_right h.le).symm
  · exact (min_eq_left (not_lt.mp h)).symm

theorem ite_gt_zero_eq_min (x : ℚ) : (if x > 0 then (0:ℚ) else x) = min x 0 := by
  split_ifs with h
  · exact (min_eq_right h.le).symm
  · exact (min_eq_left (not_lt.mp h)).symm

theorem ite_lt_eq_max (x c : ℚ) : (if x < c then c else x) = max x c := by
  split_ifs with h
  · exact (max_eq_right h.le).symm
  · exact (max_eq_left (not_lt.mp h)).symm

theorem up_unlimited_eq (a : Asset) (time : List ℚ) :
    up_unlimited a time
      = time.map (fun t => min (max (a.rampUp * (t - a.latency)) 0) (a.maxOutput - a.output)) := by
  unfold up_unlimited
  simp only [List.map_map]
  congr 1
  funext t
  simp only [Function.comp_apply]
  rw [ite_lt_zero_eq_max, ite_gt_eq_min,
    show t * a.rampUp - a.latency * a.rampUp = a.rampUp * (t - a.latency) from by ring]

theorem down_unlimited_eq (a : Asset) (time : List ℚ) :
    down_unlimited a time
      = time.map (fun t => max (min (-a.rampDown * (t - a.latency)) 0) (a.minOutput - a.output)) := by
  unfold down_unlimited
  simp only [List.map_map]
  congr 1
  funext t
  simp only [Function.comp_apply]
  rw [ite_gt_zero_eq_min, ite_lt_eq_max,
    show t * -a.rampDown - a.latency * -a.rampDown = -a.rampDown * (t - a.latency) from by ring]

/-- C2: for every non-absent asset without energy fields and every point of the
time grid, `get_asset_flexibility` returns
`up(t) = min(max(rampUp * (t − latency), 0), maxOutput − output)` and
`down(t) = max(min(−rampDown * (t − latency), 0), minOutput − output)`, with
`baseOutput` passed through as `asset.output`; the gas scenario
(`up(0.5)=0`, `up(2)=1`, `up(3)=2`) is checked in the witness. -/
theorem envelope_formula (a : Asset) (time : List ℚ) (ha : a.energy = none) :
    (get_asset_flexibility (some a) time).up
        = time.map (fun t => min (max (a.rampUp * (t - a.latency)) 0) (a.maxOutput - a.output))
      ∧ (get_asset_flexibility (some a) time).down
        = time.map (fun t => max (min (-a.rampDown * (t - a.latency)) 0) (a.minOutput - a.output))
      ∧ (get_asset_flexibility (some a) time).output = a.output := by
  simp only [get_asset_flexibility, ha]
  exact ⟨up_unlimited_eq a time, down_unlimited_eq a time, trivial⟩

/-- Witness for C2: the specification's gas-fired scenario asset with
`time = [0.5, 2, 3]`, including the concrete values `up = [0, 1, 2]`. -/
theorem envelope_formula_witness :
    ((get_asset_flexibility (some gas_fire_asset) [1/2, 2, 3]).up
        = List.map (fun t => min (max (gas_fire_asset.rampUp * (t - gas_fire_asset.latency)) 0)
            (gas_fire_asset.maxOutput - gas_fire_asset.output)) [1/2, 2, 3]
      ∧ (get_asset_flexibility (some gas_fire_asset) [1/2, 2, 3]).down
        = List.map (fun t => max (min (-gas_fire_asset.rampDown * (t - gas_fire_asset.latency)) 0)
            (gas_fire_asset.minOutput - gas_fire_asset.output)) [1/2, 2, 3]
      ∧ (get_asset_flexibility (some gas_fire_asset) [1/2, 2, 3]).output = gas_fire_asset.output)
    ∧ (get_asset_flexibility (some gas_fire_asset) [1/2, 2, 3]).up = [0, 1, 2] := by
  constructor
  · exact envelope_formula gas_fire_asset [1/2, 2, 3] rfl
  · norm_num [get_asset_flexibility, up_unlimited, gas_fire_asset]

/-! ### The first-crossing search -/

theorem firstIdxGt_nil (y : List ℚ) : firstIdxGt [] y = none := by cases y <;> rfl

theorem firstIdxGt_cons (x y : ℚ) (xs ys : List ℚ) :
    firstIdxGt (x :: xs) (y :: ys)
      = if y < x then some 0 else Option.map (fun i => i + 1) (firstIdxGt xs ys) := rfl

theorem firstIdxGt_eq_some : ∀ (x y : List ℚ) (j : Nat), j < x.length → j < y.length →
    (∀ k, k < j → ¬ y.getD k 0 < x.getD k 0) → y.getD j 0 < x.getD j 0 →
    firstIdxGt x y = some j := by
  intro x
  induction x with
  | nil => intro y j hjx; exact absurd hjx (Nat.not_lt_zero j)
  | cons a xs ih =>
    intro y j hjx hjy hleast hj
    cases y with
    | nil => exact absurd hjy (Nat.not_lt_zero j)
    | cons b ys =>
      cases j with
      | zero =>
        simp only [List.getD_cons_zero] at hj
        simp [firstIdxGt_cons, hj]
      | succ j =>
        have h0 : ¬ b < a := by
          have := hleast 0 (Nat.succ_pos j)
          simpa using this
        simp only [List.getD_cons_succ] at hj
        have hrec := ih ys j (Nat.lt_of_succ_lt_succ hjx) (Nat.lt_of_succ_lt_succ hjy)
          (fun k hk => by
            have := hleast (k + 1) (Nat.succ_lt_succ hk)
            simpa using this) hj
        simp [firstIdxGt_cons, h0, hrec]

theorem firstIdxGt_eq_none : ∀ (x y : List ℚ), x.length = y.length →
    (firstIdxGt x y = none ↔ ∀ k, k < x.length → ¬ y.getD k 0 < x.getD k 0) := by
  intro x
  induction x with
  | nil =>
    intro y _
    constructor
    · intro _ k hk
      exact absurd hk (Nat.not_lt_zero k)
    · intro _
      exact firstIdxGt_nil y
  | cons a xs ih =>
    intro y hlen
    cases y with
    | nil => exact absurd hlen (by simp)
    | cons b ys =>
      have hlen' : xs.length = ys.length := by simpa using hlen
      by_cases hba : b < a
      · constructor
        · intro habs
          rw [firstIdxGt_cons] at habs
          simp [hba] at habs
        · intro hall
          exact absurd hba (by simpa using hall 0 (Nat.succ_pos xs.length))
      · rw [firstIdxGt_cons, if_neg hba]
        constructor
        · intro hnone k hk
          have htail : firstIdxGt xs ys = none := by
            cases hfx : firstIdxGt xs ys with
            | none => rfl
            | some i => rw [hfx] at hnone; simp at hnone
          have hall := (ih ys hlen').mp htail
          cases k with
          | zero => simpa using hba
          | succ k =>
            have := hall k (Nat.lt_of_succ_lt_succ hk)
            simpa using this
        · intro hall
          have htail : firstIdxGt xs ys = none := (ih ys hlen').mpr (fun k hk => by
            have := hall (k + 1) (Nat.succ_lt_succ hk)
            simpa using this)
          rw [htail]
          rfl

/-- C1: whenever `j` is the least index with `curve.upper[j] < up[j]` (strict;
equality counts as not yet crossed) and `i` the least index with
`curve.lower[i] > down[i]`, the solver returns `maxDisturbance = curve.upper[j]`
at `time[j]` and `minDisturbance = curve.lower[i]` at `time[i]`. -/
theorem solver_first_crossing (sf : SysFlex) (curve : DisturbanceCurve) (time : List ℚ)
    (i j : Nat)
    (hi1 : i < curve.lower.length) (hi2 : i < sf.down.length)
    (hj1 : j < sf.up.length) (hj2 : j < curve.upper.length)
    (hjleast : ∀ k, k < j → ¬ curve.upper.getD k 0 < sf.up.getD k 0)
    (hj : curve.upper.getD j 0 < sf.up.getD j 0)
    (hileast : ∀ k, k < i → ¬ sf.down.getD k 0 < curve.lower.getD k 0)
    (hi : sf.down.getD i 0 < curve.lower.getD i 0) :
    get_max_min_disturbance sf curve time
      = some { maxDist := curve.upper.getD j 0, minDist := curve.lower.getD i 0,
               maxDistTime := time.getD j 0, minDistTime := time.getD i 0 } := by
  unfold get_max_min_disturbance
  rw [firstIdxGt_eq_some curve.lower sf.down i hi1 hi2 hileast hi,
    firstIdxGt_eq_some sf.up curve.upper j hj1 hj2 hjleast hj]

/-- Witness for C1: a two-sample grid where both crossings first occur at
index 1, so the solver reports `upper[1] = 3` and `lower[1] = -1` at time 2. -/
theorem solver_first_crossing_witness :
    get_max_min_disturbance ⟨[0, 5], [0, -5]⟩ ⟨[-1, -1], [3, 3]⟩ [1, 2]
      = some ⟨3, -1, 2, 2⟩ := by
  have h := solver_first_crossing ⟨[0, 5], [0, -5]⟩ ⟨[-1, -1], [3, 3]⟩ [1, 2] 1 1
    (by norm_num) (by norm_num) (by norm_num) (by norm_num)
    (by
      intro k hk
      interval_cases k
      norm_num [List.getD_cons_zero])
    (by norm_num [List.getD_cons_succ, List.getD_cons_zero])
    (by
      intro k hk
      interval_cases k
      norm_num [List.getD_cons_zero])
    (by norm_num [List.getD_cons_succ, List.getD_cons_zero])
  exact h

/-- C8: the solver fails (returns `none`, the `NoCrossingFound` of the
specification, carrying no partial result) if and only if at least one
direction has no strictly-crossing index anywhere in the time grid. -/
theorem no_crossing_iff (sf : SysFlex) (curve : DisturbanceCurve) (time : List ℚ) (n : Nat)
    (h1 : curve.lower.length = n) (h2 : sf.down.length = n)
    (h3 : sf.up.length = n) (h4 : curve.upper.length = n) :
    (get_max_min_disturbance sf curve time = none
      ↔ (∀ j, j < n → ¬ curve.upper.getD j 0 < sf.up.getD j 0)
        ∨ (∀ i, i < n → ¬ sf.down.getD i 0 < curve.lower.getD i 0)) := by
  have hdlen : curve.lower.length = sf.down.length := by rw [h1, h2]
  have hulen : sf.up.length = curve.upper.length := by rw [h3, h4]
  unfold get_max_min_disturbance
  cases hdown : firstIdxGt curve.lower sf.down with
  | none =>
    constructor
    · intro _
      right
      have hall := (firstIdxGt_eq_none curve.lower sf.down hdlen).mp hdown
      intro k hk
      exact hall k (by rw [h1]; exact hk)
    · intro _
      rfl
  | some idown =>
    cases hup : firstIdxGt sf.up curve.upper with
    | none =>
      constructor
      · intro _
        left
        have hall := (firstIdxGt_eq_none sf.up curve.upper hulen).mp hup
        intro k hk
        exact hall k (by rw [h3]; exact hk)
      · intro _
        rfl
    | some iup =>
      constructor
      · intro habs
        simp at habs
      · intro hor
        exfalso
        cases hor with
        | inl hall =>
          have hnone : firstIdxGt sf.up curve.upper = none :=
            (firstIdxGt_eq_none sf.up curve.upper hulen).mpr
              (fun k hk => hall k (by rw [← h3]; exact hk))
          rw [hnone] at hup
          cases hup
        | inr hall =>
          have hnone : firstIdxGt curve.lower sf.down = none :=
            (firstIdxGt_eq_none curve.lower sf.down hdlen).mpr
              (fun k hk => hall k (by rw [← h1]; exact hk))
          rw [hnone] at hdown
          cases hdown

/-- Witness for C8: one sample, upward crossing exists (`3 < 5`) but no
downward crossing (`0` never exceeded by `-1`), so the solver returns `none`. -/
theorem no_crossing_iff_witness :
    (get_max_min_disturbance ⟨[5], [0]⟩ ⟨[-1], [3]⟩ [1] = none
      ↔ (∀ j, j < 1 → ¬ List.getD [(3:ℚ)] j 0 < List.getD [(5:ℚ)] j 0)
        ∨ (∀ i, i < 1 → ¬ List.getD [(0:ℚ)] i 0 < List.getD [(-1:ℚ)] i 0))
    ∧ get_max_min_disturbance ⟨[5], [0]⟩ ⟨[-1], [3]⟩ [1] = none := by
  constructor
  · exact no_crossing_iff ⟨[5], [0]⟩ ⟨[-1], [3]⟩ [1] 1 rfl rfl rfl rfl
  · norm_num [get_max_min_disturbance, firstIdxGt_cons, firstIdxGt_nil]

/-! ### The disturbance-tolerance curve -/

theorem np_pi_ne_zero : np_pi ≠ 0 := by norm_num [np_pi]

theorem half_J_omega_sq (K f x : ℚ) (hf : f ≠ 0) :
    1/2 * ((2 * K) / ((4 * np_pi * f / 2) ^ 2)) * (4 * np_pi * x / 2) ^ 2 = K * (x / f) ^ 2 := by
  have hp : np_pi ≠ 0 := np_pi_ne_zero
  have hne : (4 * np_pi * f / 2) ≠ 0 :=
    div_ne_zero (mul_ne_zero (mul_ne_zero (by norm_num) hp) hf) two_ne_zero
  field_simp
  ring

/-- C3: the curve divides the kinetic-energy margins by `t`:
`upper(t) = (K − K_min)/t` and `lower(t) = −(K_max − K)/t` with `K_min`, `K_max`
the rotating-mass energies `½ J ω²` at `freqMin`, `freqMax` and `J` derived from
`K` at the current frequency; equivalently
`upper(t) = K·(1 − (freqMin/freq)²)/t` and `lower(t) = −K·((freqMax/freq)² − 1)/t`,
the angular-frequency scale constant cancelling. -/
theorem disturbance_curve_formula (system : GridSystem) (time : List ℚ)
    (hf : system.freq ≠ 0) :
    (get_power_disturbance_curve time system).upper
        = time.map (fun t =>
            (system.inertia
              - 1/2 * ((2 * system.inertia) / ((4 * np_pi * system.freq / 2) ^ 2))
                * (4 * np_pi * system.freqMin / 2) ^ 2) / t)
      ∧ (get_power_disturbance_curve time system).upper
        = time.map (fun t => system.inertia * (1 - (system.freqMin / system.freq) ^ 2) / t)
      ∧ (get_power_disturbance_curve time system).lower
        = time.map (fun t =>
            -(1/2 * ((2 * system.inertia) / ((4 * np_pi * system.freq / 2) ^ 2))
                * (4 * np_pi * system.freqMax / 2) ^ 2 - system.inertia) / t)
      ∧ (get_power_disturbance_curve time system).lower
        = time.map (fun t => -(system.inertia * ((system.freqMax / system.freq) ^ 2 - 1)) / t) := by
  have hm := half_J_omega_sq system.inertia system.freq system.freqMin hf
  have hM := half_J_omega_sq system.inertia system.freq system.freqMax hf
  refine ⟨rfl, ?_, rfl, ?_⟩
  · simp only [get_power_disturbance_curve]
    congr 1
    funext t
    rw [hm]
    ring
  · simp only [get_power_disturbance_curve]
    congr 1
    funext t
    rw [hM]
    ring

/-- Witness for C3: the scenario system `inertia=50, freq=60, freqMin=59,
freqMax=61` on the one-point grid `[1]`. -/
theorem disturbance_curve_formula_witness :
    (get_power_disturbance_curve [1] ⟨50, 60, 59, 61⟩).upper
        = List.map (fun t =>
            (50 - 1/2 * ((2 * 50) / ((4 * np_pi * 60 / 2) ^ 2)) * (4 * np_pi * 59 / 2) ^ 2) / t) [1]
      ∧ (get_power_disturbance_curve [1] ⟨50, 60, 59, 61⟩).upper
        = List.map (fun t => 50 * (1 - (59 / 60) ^ 2) / t) [1]
      ∧ (get_power_disturbance_curve [1] ⟨50, 60, 59, 61⟩).lower
        = List.map (fun t =>
            -(1/2 * ((2 * 50) / ((4 * np_pi * 60 / 2) ^ 2)) * (4 * np_pi * 61 / 2) ^ 2 - 50) / t) [1]
      ∧ (get_power_disturbance_curve [1] ⟨50, 60, 59, 61⟩).lower
        = List.map (fun t => -(50 * ((61 / 60) ^ 2 - 1)) / t) [1] :=
  disturbance_curve_formula ⟨50, 60, 59, 61⟩ [1] (by norm_num)

/-- C5 counterexample: with `freq = 60` exactly midway between `freqMin = 59`
and `freqMax = 61` and `inertia = 50`, at the grid point `t = 1` the curve has
`upper = 119/72` but `-lower = 121/72`, so `upper(t) = -lower(t)` fails. -/
theorem curve_symmetry_counterexample :
    ((60:ℚ) = (59 + 61) / 2)
    ∧ (get_power_disturbance_curve [1] ⟨50, 60, 59, 61⟩).upper.getD 0 0
        ≠ -(get_power_disturbance_curve [1] ⟨50, 60, 59, 61⟩).lower.getD 0 0 := by
  constructor
  · norm_num
  · norm_num [get_power_disturbance_curve, np_pi, List.getD_cons_zero]

/-- C5 amended: `upper(t) = -lower(t)` at every grid point holds under the
quadratic-mean condition `2·freq² = freqMin² + freqMax²` (for the arithmetic
midpoint `freq = (freqMin+freqMax)/2` of the claim this forces
`freqMin = freqMax`). -/
theorem curve_symmetry (system : GridSystem) (time : List ℚ) (hf : system.freq ≠ 0)
    (hmid : 2 * system.freq ^ 2 = system.freqMin ^ 2 + system.freqMax ^ 2) :
    (get_power_disturbance_curve time system).upper
      = (get_power_disturbance_curve time system).lower.map (fun x => -x) := by
  have hm := half_J_omega_sq system.inertia system.freq system.freqMin hf
  have hM := half_J_omega_sq system.inertia system.freq system.freqMax hf
  have hsum : (system.freqMin / system.freq) ^ 2 + (system.freqMax / system.freq) ^ 2 = 2 := by
    field_simp
    linarith [hmid]
  simp only [get_power_disturbance_curve, List.map_map]
  congr 1
  funext t
  simp only [Function.comp_apply]
  rw [hm, hM]
  linear_combination (-(system.inertia / t)) * hsum

/-- Witness for C5 (amended): `freq = 5` is the quadratic mean of the limits
`freqMin = 1`, `freqMax = 7` (`2·25 = 1 + 49`), so the curves are symmetric. -/
theorem curve_symmetry_witness :
    (get_power_disturbance_curve [1] ⟨50, 5, 1, 7⟩).upper
      = (get_power_disturbance_curve [1] ⟨50, 5, 1, 7⟩).lower.map (fun x => -x) :=
  curve_symmetry ⟨50, 5, 1, 7⟩ [1] (by norm_num) (by norm_num)

/-! ### Aggregation and the zero envelope -/

theorem length_addL (x y : List ℚ) : (addL x y).length = min x.length y.length := by
  simp [addL]

theorem addL_replicate_right : ∀ (x : List ℚ) (n : Nat), x.length = n →
    addL x (List.replicate n 0) = x := by
  intro x
  induction x with
  | nil => intro n h; simp [addL]
  | cons a xs ih =>
    intro n h
    cases n with
    | zero => simp at h
    | succ n =>
      simp only [List.replicate_succ, addL, List.zipWith_cons_cons, add_zero]
      congr 1
      exact ih n (by simpa using h)

theorem addL_replicate_left : ∀ (x : List ℚ) (n : Nat), x.length = n →
    addL (List.replicate n 0) x = x := by
  intro x
  induction x with
  | nil => intro n h; simp [addL]
  | cons a xs ih =>
    intro n h
    cases n with
    | zero => simp at h
    | succ n =>
      simp only [List.replicate_succ, addL, List.zipWith_cons_cons, zero_add]
      congr 1
      exact ih n (by simpa using h)

/-- C6: an absent asset yields the zero envelope (`up = down = 0` pointwise,
`baseOutput = 0`), and this envelope is an additive identity for the
aggregator: with the zero envelope in any of the five slots, the aggregate
equals the elementwise sum of the remaining four envelopes. -/
theorem absent_asset_identity (ga hy so wi ba : Flex) (time : List ℚ)
    (hga : ga.up.length = time.length) (hga2 : ga.down.length = time.length)
    (hhy : hy.up.length = time.length) (hhy2 : hy.down.length = time.length)
    (hso : so.up.length = time.length) (hso2 : so.down.length = time.length)
    (hwi : wi.up.length = time.length) (hwi2 : wi.down.length = time.length)
    (_hba : ba.up.length = time.length) (_hba2 : ba.down.length = time.length) :
    (∀ x ∈ (get_asset_flexibility none time).up, x = 0)
    ∧ (∀ x ∈ (get_asset_flexibility none time).down, x = 0)
    ∧ (get_asset_flexibility none time).output = 0
    ∧ flexibility_aggreagation ga hy so wi (get_asset_flexibility none time)
        = { up := addL (addL (addL ga.up hy.up) so.up) wi.up,
            down := addL (addL (addL ga.down hy.down) so.down) wi.down }
    ∧ flexibility_aggreagation ga hy so (get_asset_flexibility none time) ba
        = { up := addL (addL (addL ga.up hy.up) so.up) ba.up,
            down := addL (addL (addL ga.down hy.down) so.down) ba.down }
    ∧ flexibility_aggreagation ga hy (get_asset_flexibility none time) wi ba
        = { up := addL (addL (addL ga.up hy.up) wi.up) ba.up,
            down := addL (addL (addL ga.down hy.down) wi.down) ba.down }
    ∧ flexibility_aggreagation ga (get_asset_flexibility none time) so wi ba
        = { up := addL (addL (addL ga.up so.up) wi.up) ba.up,
            down := addL (addL (addL ga.down so.down) wi.down) ba.down }
    ∧ flexibility_aggreagation (get_asset_flexibility none time) hy so wi ba
        = { up := addL (addL (addL hy.up so.up) wi.up) ba.up,
            down := addL (addL (addL hy.down so.down) wi.down) ba.down } := by
  have l1 : (addL ga.up hy.up).length = time.length := by
    rw [length_addL, hga, hhy, min_self]
  have l1d : (addL ga.down hy.down).length = time.length := by
    rw [length_addL, hga2, hhy2, min_self]
  have l2 : (addL (addL ga.up hy.up) so.up).length = time.length := by
    rw [length_addL, l1, hso, min_self]
  have l2d : (addL (addL ga.down hy.down) so.down).length = time.length := by
    rw [length_addL, l1d, hso2, min_self]
  have l3 : (addL (addL (addL ga.up hy.up) so.up) wi.up).length = time.length := by
    rw [length_addL, l2, hwi, min_self]
  have l3d : (addL (addL (addL ga.down hy.down) so.down) wi.down).length = time.length := by
    rw [length_addL, l2d, hwi2, min_self]
  refine ⟨fun x hx => List.eq_of_mem_replicate hx, fun x hx => List.eq_of_mem_replicate hx,
    rfl, ?_, ?_, ?_, ?_, ?_⟩
  · simp only [flexibility_aggreagation, get_asset_flexibility]
    rw [addL_replicate_right _ _ l3, addL_replicate_right _ _ l3d]
  · simp only [flexibility_aggreagation, get_asset_flexibility]
    rw [addL_replicate_right _ _ l2, addL_replicate_right _ _ l2d]
  · simp only [flexibility_aggreagation, get_asset_flexibility]
    rw [addL_replicate_right _ _ l1, addL_replicate_right _ _ l1d]
  · simp only [flexibility_aggreagation, get_asset_flexibility]
    rw [addL_replicate_right _ _ hga, addL_replicate_right _ _ hga2]
  · simp only [flexibility_aggreagation, get_asset_flexibility]
    rw [addL_replicate_left _ _ hhy, addL_replicate_left _ _ hhy2]

/-- Witness for C6: five one-sample envelopes, with the concrete evaluation
`1 + 2 + 3 + 4 + 0 = 10` for the battery-absent aggregate. -/
theorem absent_asset_identity_witness :
    ((∀ x ∈ (get_asset_flexibility none [1]).up, x = 0)
      ∧ (∀ x ∈ (get_asset_flexibility none [1]).down, x = 0)
      ∧ (get_asset_flexibility none [1]).output = 0
      ∧ flexibility_aggreagation ⟨[1], [-1], 4⟩ ⟨[2], [-2], 0⟩ ⟨[3], [-3], 0⟩ ⟨[4], [-4], 0⟩
            (get_asset_flexibility none [1])
          = { up := addL (addL (addL [1] [2]) [3]) [4],
              down := addL (addL (addL [-1] [-2]) [-3]) [-4] }
      ∧ flexibility_aggreagation ⟨[1], [-1], 4⟩ ⟨[2], [-2], 0⟩ ⟨[3], [-3], 0⟩
            (get_asset_flexibility none [1]) ⟨[5], [-5], 0⟩
          = { up := addL (addL (addL [1] [2]) [3]) [5],
              down := addL (addL (addL [-1] [-2]) [-3]) [-5] }
      ∧ flexibility_aggreagation ⟨[1], [-1], 4⟩ ⟨[2], [-2], 0⟩ (get_asset_flexibility none [1])
            ⟨[4], [-4], 0⟩ ⟨[5], [-5], 0⟩
          = { up := addL (addL (addL [1] [2]) [4]) [5],
              down := addL (addL (addL [-1] [-2]) [-4]) [-5] }
      ∧ flexibility_aggreagation ⟨[1], [-1], 4⟩ (get_asset_flexibility none [1]) ⟨[3], [-3], 0⟩
            ⟨[4], [-4], 0⟩ ⟨[5], [-5], 0⟩
          = { up := addL (addL (addL [1] [3]) [4]) [5],
              down := addL (addL (addL [-1] [-3]) [-4]) [-5] }
      ∧ flexibility_aggreagation (get_asset_flexibility none [1]) ⟨[2], [-2], 0⟩ ⟨[3], [-3], 0⟩
            ⟨[4], [-4], 0⟩ ⟨[5], [-5], 0⟩
          = { up := addL (addL (addL [2] [3]) [4]) [5],
              down := addL (addL (addL [-2] [-3]) [-4]) [-5] })
    ∧ (flexibility_aggreagation ⟨[1], [-1], 4⟩ ⟨[2], [-2], 0⟩ ⟨[3], [-3], 0⟩ ⟨[4], [-4], 0⟩
          (get_asset_flexibility none [1])).up = [10] := by
  constructor
  · exact absent_asset_identity ⟨[1], [-1], 4⟩ ⟨[2], [-2], 0⟩ ⟨[3], [-3], 0⟩ ⟨[4], [-4], 0⟩
      ⟨[5], [-5], 0⟩ [1] rfl rfl rfl rfl rfl rfl rfl rfl rfl rfl
  · norm_num [flexibility_aggreagation, addL, get_asset_flexibility, List.replicate]

/-! ### Bound preservation -/

theorem mem_up_unlimited_le (a : Asset) (time : List ℚ) :
    ∀ x ∈ up_unlimited a time, x ≤ a.maxOutput - a.output := by
  intro x hx
  simp only [up_unlimited, List.mem_map] at hx
  obtain ⟨y, ⟨z, hz, rfl⟩, rfl⟩ := hx
  split_ifs <;> linarith

theorem mem_up_unlimited_nonneg (a : Asset) (time : List ℚ) (hout : a.output ≤ a.maxOutput) :
    ∀ x ∈ up_unlimited a time, 0 ≤ x := by
  intro x hx
  simp only [up_unlimited, List.mem_map] at hx
  obtain ⟨y, ⟨z, hz, rfl⟩, rfl⟩ := hx
  split_ifs <;> linarith

theorem mem_down_unlimited_ge (a : Asset) (time : List ℚ) :
    ∀ x ∈ down_unlimited a time, a.minOutput - a.output ≤ x := by
  intro x hx
  simp only [down_unlimited, List.mem_map] at hx
  obtain ⟨y, ⟨z, hz, rfl⟩, rfl⟩ := hx
  split_ifs <;> linarith

theorem mem_down_unlimited_nonpos (a : Asset) (time : List ℚ) (hout : a.minOutput ≤ a.output) :
    ∀ x ∈ down_unlimited a time, x ≤ 0 := by
  intro x hx
  simp only [down_unlimited, List.mem_map] at hx
  obtain ⟨y, ⟨z, hz, rfl⟩, rfl⟩ := hx
  split_ifs <;> linarith

theorem mem_zip_ite_up (e dt : ℚ) : ∀ (cs vs : List ℚ),
    ∀ x ∈ List.zipWith (fun c v => if c * dt > e then (0:ℚ) else v) cs vs, x = 0 ∨ x ∈ vs := by
  intro cs
  induction cs with
  | nil => intro vs x hx; simp at hx
  | cons c cs ih =>
    intro vs x hx
    cases vs with
    | nil => simp at hx
    | cons v vs =>
      rw [List.zipWith_cons_cons] at hx
      rcases List.mem_cons.mp hx with h | h
      · by_cases hc : c * dt > e
        · left
          simpa [hc] using h
        · right
          rw [List.mem_cons]
          left
          simpa [hc] using h
      · rcases ih vs x h with h0 | hmem
        · left
          exact h0
        · right
          exact List.mem_cons.mpr (Or.inr hmem)

theorem mem_zip_ite_down (e dt : ℚ) : ∀ (cs vs : List ℚ),
    ∀ x ∈ List.zipWith (fun c v => if -c * dt > e then (0:ℚ) else v) cs vs, x = 0 ∨ x ∈ vs := by
  intro cs
  induction cs with
  | nil => intro vs x hx; simp at hx
  | cons c cs ih =>
    intro vs x hx
    cases vs with
    | nil => simp at hx
    | cons v vs =>
      rw [List.zipWith_cons_cons] at hx
      rcases List.mem_cons.mp hx with h | h
      · have hb : x = if -c * dt > e then (0:ℚ) else v := h
        by_cases hc : -c * dt > e
        · left
          rw [hb, if_pos hc]
        · right
          rw [List.mem_cons]
          left
          rw [hb, if_neg hc]
      · rcases ih vs x h with h0 | hmem
        · left
          exact h0
        · right
          exact List.mem_cons.mpr (Or.inr hmem)

/-- C7: for every asset with `minOutput ≤ output ≤ maxOutput` — storage assets
after the energy-limit correction included — the returned envelope keeps
`baseOutput + up(t) ≤ maxOutput` and `baseOutput + down(t) ≥ minOutput` at
every sampled point. -/
theorem bound_preservation (a : Asset) (time : List ℚ)
    (hmin : a.minOutput ≤ a.output) (hmax : a.output ≤ a.maxOutput) :
    (∀ x ∈ (get_asset_flexibility (some a) time).up,
        (get_asset_flexibility (some a) time).output + x ≤ a.maxOutput)
    ∧ (∀ x ∈ (get_asset_flexibility (some a) time).down,
        a.minOutput ≤ (get_asset_flexibility (some a) time).output + x) := by
  have hout : (get_asset_flexibility (some a) time).output = a.output := by
    cases he : a.energy <;> simp [get_asset_flexibility, he]
  rw [hout]
  cases he : a.energy with
  | none =>
    simp only [get_asset_flexibility, he]
    constructor
    · intro x hx
      have := mem_up_unlimited_le a time x hx
      linarith
    · intro x hx
      have := mem_down_unlimited_ge a time x hx
      linarith
  | some e =>
    simp only [get_asset_flexibility, he]
    constructor
    · intro x hx
      rcases mem_zip_ite_up _ _ _ _ x hx with h0 | hmem
      · rw [h0]
        linarith
      · have := mem_up_unlimited_le a time x hmem
        linarith
    · intro x hx
      rcases mem_zip_ite_down _ _ _ _ x hx with h0 | hmem
      · rw [h0]
        linarith
      · have := mem_down_unlimited_ge a time x hmem
        linarith

/-- Witness for C7: a storage asset (`charge 50 %`, capacity 2 MWs) whose `up`
is energy-zeroed at the second sample, with bounds `[-1, 1]` around output 0. -/
theorem bound_preservation_witness :
    (∀ x ∈ (get_asset_flexibility (some ⟨0, 1, -1, 0, 2, 2, some ⟨50, 2⟩⟩) [1, 2]).up,
        (get_asset_flexibility (some ⟨0, 1, -1, 0, 2, 2, some ⟨50, 2⟩⟩) [1, 2]).output + x ≤ 1)
    ∧ (∀ x ∈ (get_asset_flexibility (some ⟨0, 1, -1, 0, 2, 2, some ⟨50, 2⟩⟩) [1, 2]).down,
        -1 ≤ (get_asset_flexibility (some ⟨0, 1, -1, 0, 2, 2, some ⟨50, 2⟩⟩) [1, 2]).output + x) :=
  bound_preservation ⟨0, 1, -1, 0, 2, 2, some ⟨50, 2⟩⟩ [1, 2] (by norm_num) (by norm_num)

/-! ### Absence of configuration validation -/

/-- An asset violating every validity rule of the specification:
`rampUp = rampDown = -1 ≤ 0` and `latency = -2 < 0`. -/
def invalid_asset : Asset :=
  { output := 0, maxOutput := 1, minOutput := -1, latency := -2, rampUp := -1, rampDown := -1,
    energy := none }

/-- C9 counterexample: `get_asset_flexibility` has no validation path: on this
invalid asset it returns an ordinary envelope (here the zero envelope) instead
of failing with `InvalidAssetConfiguration`; the embedded function is total. -/
theorem no_validation_counterexample :
    (invalid_asset.rampUp ≤ 0 ∧ invalid_asset.rampDown ≤ 0 ∧ invalid_asset.latency < 0)
    ∧ get_asset_flexibility (some invalid_asset) [1, 2]
        = { up := [0, 0], down := [0, 0], output := 0 } := by
  constructor
  · norm_num [invalid_asset]
  · norm_num [get_asset_flexibility, up_unlimited, down_unlimited, invalid_asset, Flex.mk.injEq]

/-- C9 amended: the call performs no validation: for every asset without energy
fields, also one with `rampUp ≤ 0`, `rampDown ≤ 0`, `latency < 0` or `output`
outside `[minOutput, maxOutput]`, it returns the envelope of the clamp
formulas instead of failing. -/
theorem no_validation (a : Asset) (time : List ℚ) (ha : a.energy = none)
    (_hbad : a.rampUp ≤ 0 ∨ a.rampDown ≤ 0 ∨ a.latency < 0
      ∨ a.output < a.minOutput ∨ a.maxOutput < a.output) :
    get_asset_flexibility (some a) time
      = { up := time.map (fun t => min (max (a.rampUp * (t - a.latency)) 0)
            (a.maxOutput - a.output)),
          down := time.map (fun t => max (min (-a.rampDown * (t - a.latency)) 0)
            (a.minOutput - a.output)),
          output := a.output } := by
  simp only [get_asset_flexibility, ha]
  rw [up_unlimited_eq, down_unlimited_eq]

/-- Witness for C9 (amended): the invalid asset above still yields the clamp
formulas' envelope. -/
theorem no_validation_witness :
    get_asset_flexibility (some invalid_asset) [1, 2]
      = { up := List.map (fun t => min (max (invalid_asset.rampUp * (t - invalid_asset.latency)) 0)
            (invalid_asset.maxOutput - invalid_asset.output)) [1, 2],
          down := List.map (fun t => max (min (-invalid_asset.rampDown * (t - invalid_asset.latency)) 0)
            (invalid_asset.minOutput - invalid_asset.output)) [1, 2],
          output := invalid_asset.output } :=
  no_validation invalid_asset [1, 2] rfl (Or.inl (by norm_num [invalid_asset]))

/-! ### The energy limit and prefix sums -/

theorem cumsumFrom_length : ∀ (l : List ℚ) (acc : ℚ), (cumsumFrom acc l).length = l.length := by
  intro l
  induction l with
  | nil => intro acc; rfl
  | cons x xs ih =>
    intro acc
    simp [cumsumFrom, ih]

theorem cumsum_length (l : List ℚ) : (cumsum l).length = l.length := cumsumFrom_length l 0

theorem up_unlimited_length (a : Asset) (time : List ℚ) :
    (up_unlimited a time).length = time.length := by
  simp [up_unlimited]

theorem down_unlimited_length (a : Asset) (time : List ℚ) :
    (down_unlimited a time).length = time.length := by
  simp [down_unlimited]

theorem cumsumFrom_ge_acc : ∀ (l : List ℚ) (acc : ℚ), (∀ x ∈ l, 0 ≤ x) →
    ∀ k, k < l.length → acc ≤ (cumsumFrom acc l).getD k 0 := by
  intro l
  induction l with
  | nil => intro acc _ k hk; exact absurd hk (Nat.not_lt_zero k)
  | cons x xs ih =>
    intro acc hpos k hk
    have hx : 0 ≤ x := hpos x (List.mem_cons_self x xs)
    cases k with
    | zero =>
      simp only [cumsumFrom, List.getD_cons_zero]
      linarith
    | succ k =>
      have h2 := ih (acc + x) (fun y hy => hpos y (List.mem_cons.mpr (Or.inr hy))) k
        (by simpa using hk)
      simp only [cumsumFrom, List.getD_cons_succ]
      linarith

theorem cumsumFrom_mono : ∀ (l : List ℚ) (acc : ℚ), (∀ x ∈ l, 0 ≤ x) →
    ∀ i j, i ≤ j → j < l.length →
    (cumsumFrom acc l).getD i 0 ≤ (cumsumFrom acc l).getD j 0 := by
  intro l
  induction l with
  | nil => intro acc _ i j _ hj; exact absurd hj (Nat.not_lt_zero j)
  | cons x xs ih =>
    intro acc hpos i j hij hj
    cases i with
    | zero =>
      cases j with
      | zero => exact le_refl _
      | succ j =>
        simp only [cumsumFrom, List.getD_cons_zero, List.getD_cons_succ]
        exact cumsumFrom_ge_acc xs (acc + x) (fun y hy => hpos y (List.mem_cons.mpr (Or.inr hy)))
          j (by simpa using hj)
    | succ i =>
      cases j with
      | zero => exact absurd hij (by omega)
      | succ j =>
        simp only [cumsumFrom, List.getD_cons_succ]
        exact ih (acc + x) (fun y hy => hpos y (List.mem_cons.mpr (Or.inr hy))) i j (by omega)
          (by simpa using hj)

theorem cumsumFrom_le_acc : ∀ (l : List ℚ) (acc : ℚ), (∀ x ∈ l, x ≤ 0) →
    ∀ k, k < l.length → (cumsumFrom acc l).getD k 0 ≤ acc := by
  intro l
  induction l with
  | nil => intro acc _ k hk; exact absurd hk (Nat.not_lt_zero k)
  | cons x xs ih =>
    intro acc hneg k hk
    have hx : x ≤ 0 := hneg x (List.mem_cons_self x xs)
    cases k with
    | zero =>
      simp only [cumsumFrom, List.getD_cons_zero]
      linarith
    | succ k =>
      have h2 := ih (acc + x) (fun y hy => hneg y (List.mem_cons.mpr (Or.inr hy))) k
        (by simpa using hk)
      simp only [cumsumFrom, List.getD_cons_succ]
      linarith

theorem cumsumFrom_anti : ∀ (l : List ℚ) (acc : ℚ), (∀ x ∈ l, x ≤ 0) →
    ∀ i j, i ≤ j → j < l.length →
    (cumsumFrom acc l).getD j 0 ≤ (cumsumFrom acc l).getD i 0 := by
  intro l
  induction l with
  | nil => intro acc _ i j _ hj; exact absurd hj (Nat.not_lt_zero j)
  | cons x xs ih =>
    intro acc hneg i j hij hj
    cases i with
    | zero =>
      cases j with
      | zero => exact le_refl _
      | succ j =>
        simp only [cumsumFrom, List.getD_cons_zero, List.getD_cons_succ]
        exact cumsumFrom_le_acc xs (acc + x) (fun y hy => hneg y (List.mem_cons.mpr (Or.inr hy)))
          j (by simpa using hj)
    | succ i =>
      cases j with
      | zero => exact absurd hij (by omega)
      | succ j =>
        simp only [cumsumFrom, List.getD_cons_succ]
        exact ih (acc + x) (fun y hy => hneg y (List.mem_cons.mpr (Or.inr hy))) i j (by omega)
          (by simpa using hj)

theorem getD_zipWith (f : ℚ → ℚ → ℚ) : ∀ (l1 l2 : List ℚ) (j : Nat),
    j < l1.length → j < l2.length →
    (List.zipWith f l1 l2).getD j 0 = f (l1.getD j 0) (l2.getD j 0) := by
  intro l1
  induction l1 with
  | nil => intro l2 j hj; exact absurd hj (Nat.not_lt_zero j)
  | cons a l1 ih =>
    intro l2 j hj1 hj2
    cases l2 with
    | nil => exact absurd hj2 (Nat.not_lt_zero j)
    | cons b l2 =>
      cases j with
      | zero => simp [List.zipWith_cons_cons]
      | succ j =>
        simp only [List.zipWith_cons_cons, List.getD_cons_succ]
        exact ih l2 j (by simpa using hj1) (by simpa using hj2)

/-- C10: for a storage asset whose pre-limit `up` is pointwise nonnegative and
whose pre-limit `down` is pointwise nonpositive, with a positive grid step,
the energy limit zeroes `up` at every index from the first index at which the
running sum of pre-limit `up` values times `dt` strictly exceeds
`energyToEmpty` onward (a suffix of the grid): the threshold test at each
index uses the prefix sums computed before any zeroing, so zeroing never
lowers the sum tested later; mirrored for `down` against `energyToFull`. -/
theorem energy_limit_zeroing (a : Asset) (e : EnergyFields) (time : List ℚ)
    (he : a.energy = some e)
    (hup : ∀ x ∈ up_unlimited a time, 0 ≤ x)
    (hdown : ∀ x ∈ down_unlimited a time, x ≤ 0)
    (hdt : 0 < time.getD 1 0 - time.getD 0 0) :
    (∀ i j, i ≤ j → j < time.length →
        e.charge * e.energyCapacity / 100
            < (cumsum (up_unlimited a time)).getD i 0 * (time.getD 1 0 - time.getD 0 0) →
        (get_asset_flexibility (some a) time).up.getD j 0 = 0)
    ∧ (∀ i j, i ≤ j → j < time.length →
        e.energyCapacity - e.charge * e.energyCapacity / 100
            < -(cumsum (down_unlimited a time)).getD i 0 * (time.getD 1 0 - time.getD 0 0) →
        (get_asset_flexibility (some a) time).down.getD j 0 = 0) := by
  have hulen : (up_unlimited a time).length = time.length := up_unlimited_length a time
  have hdlen : (down_unlimited a time).length = time.length := down_unlimited_length a time
  have huclen : (cumsum (up_unlimited a time)).length = time.length := by
    rw [cumsum_length, hulen]
  have hdclen : (cumsum (down_unlimited a time)).length = time.length := by
    rw [cumsum_length, hdlen]
  constructor
  · intro i j hij hj hcross
    have hmono : (cumsum (up_unlimited a time)).getD i 0
        ≤ (cumsum (up_unlimited a time)).getD j 0 :=
      cumsumFrom_mono (up_unlimited a time) 0 hup i j hij (by rw [hulen]; exact hj)
    have hcj : e.charge * e.energyCapacity / 100
        < (cumsum (up_unlimited a time)).getD j 0 * (time.getD 1 0 - time.getD 0 0) :=
      lt_of_lt_of_le hcross (mul_le_mul_of_nonneg_right hmono hdt.le)
    simp only [get_asset_flexibility, he]
    rw [getD_zipWith _ _ _ j (by rw [huclen]; exact hj) (by rw [hulen]; exact hj)]
    exact if_pos hcj
  · intro i j hij hj hcross
    have hanti : (cumsum (down_unlimited a time)).getD j 0
        ≤ (cumsum (down_unlimited a time)).getD i 0 :=
      cumsumFrom_anti (down_unlimited a time) 0 hdown i j hij (by rw [hdlen]; exact hj)
    have hcj : e.energyCapacity - e.charge * e.energyCapacity / 100
        < -(cumsum (down_unlimited a time)).getD j 0 * (time.getD 1 0 - time.getD 0 0) := by
      have hneg : -(cumsum (down_unlimited a time)).getD i 0
          ≤ -(cumsum (down_unlimited a time)).getD j 0 := by linarith
      exact lt_of_lt_of_le hcross (mul_le_mul_of_nonneg_right hneg hdt.le)
    simp only [get_asset_flexibility, he]
    rw [getD_zipWith _ _ _ j (by rw [hdclen]; exact hj) (by rw [hdlen]; exact hj)]
    exact if_pos hcj

/-- Witness for C10: storage asset `{output=0, max=2, min=-2, latency=0,
rampUp=rampDown=1, charge=50 %, capacity=2 MWs}` on `[1, 2, 3]`: the budget 1
is crossed at index 1 in both directions, so index 2 is zeroed in both. -/
theorem energy_limit_zeroing_witness :
    (get_asset_flexibility (some ⟨0, 2, -2, 0, 1, 1, some ⟨50, 2⟩⟩) [1, 2, 3]).up.getD 2 0 = 0
    ∧ (get_asset_flexibility (some ⟨0, 2, -2, 0, 1, 1, some ⟨50, 2⟩⟩) [1, 2, 3]).down.getD 2 0
        = 0 := by
  have h := energy_limit_zeroing ⟨0, 2, -2, 0, 1, 1, some ⟨50, 2⟩⟩ ⟨50, 2⟩ [1, 2, 3] rfl
    (by
      norm_num [up_unlimited, List.forall_mem_cons])
    (by
      norm_num [down_unlimited, List.forall_mem_cons])
    (by norm_num [List.getD_cons_succ, List.getD_cons_zero])
  refine ⟨h.1 1 2 (by norm_num) (by norm_num) ?_, h.2 1 2 (by norm_num) (by norm_num) ?_⟩
  · norm_num [up_unlimited, cumsum, cumsumFrom, List.getD_cons_succ, List.getD_cons_zero]
  · norm_num [down_unlimited, cumsum, cumsumFrom, List.getD_cons_succ, List.getD_cons_zero]

/-- The zero-charge storage asset of the C4 scenario. -/
def empty_battery : Asset :=
  { output := 0, maxOutput := 1, minOutput := -1, latency := 0, rampUp := 1, rampDown := 1,
    energy := some ⟨0, 100⟩ }

/-- C4 counterexample: for this `chargePercent = 0` storage asset on the
uniform grid `[1, 2]`, the cumulative discharge energy already exceeds the
zero budget at index 0 (`1 · dt > 0`), yet the returned `down` is `[-1, -1]`
and in particular nonzero at index 0: the code zeroes `up` against
`energyToEmpty` and tests `down` against `energyToFull = energyCapacity`. -/
theorem energy_zero_charge_counterexample :
    (empty_battery.energy = some ⟨0, 100⟩)
    ∧ 0 < -(cumsum (down_unlimited empty_battery [1, 2])).getD 0 0 * (2 - 1)
    ∧ (get_asset_flexibility (some empty_battery) [1, 2]).down = [-1, -1]
    ∧ ¬ (get_asset_flexibility (some empty_battery) [1, 2]).down.getD 0 0 = 0
    ∧ (get_asset_flexibility (some empty_battery) [1, 2]).up = [0, 0] := by
  have h3 : (get_asset_flexibility (some empty_battery) [1, 2]).down = [-1, -1] := by
    norm_num [get_asset_flexibility, empty_battery, down_unlimited, cumsum, cumsumFrom,
      List.zipWith_cons_cons, List.getD_cons_succ, List.getD_cons_zero]
  refine ⟨rfl, ?_, h3, ?_, ?_⟩
  · norm_num [down_unlimited, empty_battery, cumsum, cumsumFrom, List.getD_cons_zero]
  · rw [h3]
    norm_num [List.getD_cons_zero]
  · norm_num [get_asset_flexibility, empty_battery, up_unlimited, cumsum, cumsumFrom,
      List.zipWith_cons_cons, List.getD_cons_succ, List.getD_cons_zero]

/-- C4 amended: for a storage asset with `chargePercent = 0` (and positive
grid step, output within its ceiling), it is the `up` envelope that is forced
to 0 at every sampled index from the first onward at which the cumulative
pre-limit up energy exceeds `energyToEmpty = 0` — essentially immediately,
since any positive up capability exceeds a zero budget; `down` is instead
tested against `energyToFull = energyCapacity`. -/
theorem energy_zero_charge (a : Asset) (E : ℚ) (time : List ℚ)
    (he : a.energy = some ⟨0, E⟩) (hout : a.output ≤ a.maxOutput)
    (hdt : 0 < time.getD 1 0 - time.getD 0 0) :
    ∀ i j, i ≤ j → j < time.length →
      0 < (cumsum (up_unlimited a time)).getD i 0 →
      (get_asset_flexibility (some a) time).up.getD j 0 = 0 := by
  intro i j hij hj hcross
  have hnn : ∀ x ∈ up_unlimited a time, 0 ≤ x := mem_up_unlimited_nonneg a time hout
  have hulen : (up_unlimited a time).length = time.length := up_unlimited_length a time
  have huclen : (cumsum (up_unlimited a time)).length = time.length := by
    rw [cumsum_length, hulen]
  have hmono : (cumsum (up_unlimited a time)).getD i 0
      ≤ (cumsum (up_unlimited a time)).getD j 0 :=
    cumsumFrom_mono (up_unlimited a time) 0 hnn i j hij (by rw [hulen]; exact hj)
  have hj2 : 0 < (cumsum (up_unlimited a time)).getD j 0 := lt_of_lt_of_le hcross hmono
  have hcj : (0:ℚ) * E / 100
      < (cumsum (up_unlimited a time)).getD j 0 * (time.getD 1 0 - time.getD 0 0) := by
    rw [zero_mul, zero_div]
    exact mul_pos hj2 hdt
  simp only [get_asset_flexibility, he]
  rw [getD_zipWith _ _ _ j (by rw [huclen]; exact hj) (by rw [hulen]; exact hj)]
  exact if_pos hcj

/-- Witness for C4 (amended): the zero-charge battery above on `[1, 2]`: the
prefix sum is already positive at index 0, so `up` is zeroed at index 1 (and
the counterexample shows it is also zeroed at index 0). -/
theorem energy_zero_charge_witness :
    (get_asset_flexibility (some empty_battery) [1, 2]).up.getD 1 0 = 0 :=
  energy_zero_charge empty_battery 100 [1, 2] rfl (by norm_num [empty_battery])
    (by norm_num [List.getD_cons_succ, List.getD_cons_zero]) 0 1 (by norm_num) (by norm_num)
    (by norm_num [up_unlimited, empty_battery, cumsum, cumsumFrom, List.getD_cons_zero])

end ReMAIn
